import Mathlib

/-!
Shallow embedding of the completion-resolution engine of the
gitlab-language-server repository (src/lsp.rs, src/main.rs).

Text is modelled as `List Char` (the source lines relevant to the claims are
ASCII, so Rust byte offsets and char offsets coincide).  Fallible code —
`.expect`, `.unwrap`, `unreachable!`, `serde_json::Map` indexing on a missing
key — is modelled with `Except String` (panic carrying a message) or with an
explicit outcome constructor.  Rust's `HashSet` collection is modelled as a
deduplicated list: the claims about the candidate sets only concern
membership and duplicate collapse, never order.
-/

/-- A JSON value, mirroring `serde_json::Value`.  Numbers carry an `Int`
payload: no claim inspects numeric values. -/
inductive Json where
  | null : Json
  | bool (b : Bool) : Json
  | num (n : Int) : Json
  | str (s : List Char) : Json
  | arr (xs : List Json) : Json
  | obj (fields : List (String × Json)) : Json

/-- First-match field lookup in a JSON object's field list (models
`serde_json::Map` key lookup). -/
def lookupField : List (String × Json) → String → Option Json
  | [], _ => none
  | (k, v) :: rest, key => if k = key then some v else lookupField rest key

/-- Indexing a `serde_json::Map` with `map[key]`: unlike `Value` indexing it
panics when the key is absent (`impl Index for Map`, "Panics if the given key
is not present in the map"). -/
def mapIndex (fields : List (String × Json)) (key : String) : Except String Json :=
  match lookupField fields key with
  | some v => Except.ok v
  | none => Except.error "key not found"

/-- `CompletionItemData` from src/lsp.rs: a candidate completion string plus
an optional description. -/
structure CompletionItemData where
  completion : List Char
  description : Option (List Char)
deriving DecidableEq

/-- The `Resource` enum from src/lsp.rs. -/
inductive Resource where
  | Labels : Resource
  | Members : Resource
  | Milestones : Resource
  | QuickActions : Resource
deriving DecidableEq

/-- The completion-text normalization in `process_resource`:
`format!("{prefix}\"{completion}\" ")` when the value contains a space
(`completion.contains(&[' '])`), `format!("{prefix}{completion} ")`
otherwise.  `sigil` is the resource's prefix character as a one-element
list. -/
def formatCompletion (sigil : List Char) (value : List Char) : List Char :=
  if ' ' ∈ value then sigil ++ ['"'] ++ value ++ ['"', ' ']
  else sigil ++ value ++ [' ']

/-- The tail of `process_resource`'s `filter_map` closure once the sigil and
the two keys are known (src/lsp.rs 496-518): index the value and description
keys — panicking (`Except.error`) when a key is missing, as
`serde_json::Map` indexing does — and build the candidate; the description
is kept only when it is a non-empty string, and a non-string value drops the
record. -/
def buildCandidate (resource : List (String × Json)) (sigil : List Char)
    (value_key description_key : String) : Except String (Option CompletionItemData) :=
  match mapIndex resource value_key with
  | Except.error e => Except.error e
  | Except.ok v =>
    match mapIndex resource description_key with
    | Except.error e => Except.error e
    | Except.ok d =>
      match v, d with
      | Json.str completionVal, Json.str descriptionVal =>
        Except.ok (some
          { completion := formatCompletion sigil completionVal
            description := if descriptionVal ≠ [] then some descriptionVal else none })
      | Json.str completionVal, _ =>
        Except.ok (some { completion := formatCompletion sigil completionVal, description := none })
      | _, _ => Except.ok none

/-- One step of `process_resource`'s `filter_map` closure (src/lsp.rs
477-525).  `Except.error` models a panic: `resource["expired"]` indexes a
`serde_json::Map` and panics when the key is missing; the `QuickActions` arm
is `unreachable!()`. -/
def processOne (resource_kind : Resource) (r : Json) : Except String (Option CompletionItemData) :=
  match r with
  | Json.obj resource =>
    match (match resource_kind with
           | Resource.Labels => Except.ok (some (['~'], "name", "description"))
           | Resource.Members => Except.ok (some (['@'], "username", "name"))
           | Resource.Milestones =>
             match mapIndex resource "expired" with
             | Except.error e => Except.error e
             | Except.ok (Json.bool true) => Except.ok none
             | Except.ok _ => Except.ok (some (['%'], "title", "description"))
           | Resource.QuickActions => Except.error "internal error: entered unreachable code") with
    | Except.error e => Except.error e
    | Except.ok none => Except.ok none
    | Except.ok (some (sigil, value_key, description_key)) =>
      buildCandidate resource sigil value_key description_key
  | _ => Except.ok none

/-- The `filter_map` traversal of `process_resource`, collecting produced
candidates left to right; a panic in the closure (Except.error) aborts the
whole traversal, as in Rust. -/
def collectCands (resource_kind : Resource) : List Json → Except String (List CompletionItemData)
  | [] => Except.ok []
  | r :: rest =>
    match processOne resource_kind r with
    | Except.error e => Except.error e
    | Except.ok none => collectCands resource_kind rest
    | Except.ok (some item) =>
      match collectCands resource_kind rest with
      | Except.error e => Except.error e
      | Except.ok out => Except.ok (item :: out)

/-- `process_resource` from src/lsp.rs: normalize a JSON array into the
candidate set.  The final `.collect::<HashSet<_>>()` is modelled by
deduplicating the collected list. -/
def process_resource (resource_kind : Resource) (resources : List Json) :
    Except String (List CompletionItemData) :=
  (collectCands resource_kind resources).map List.dedup

/-- The word-boundary characters `vec![' ', '\t']` used by `completion`. -/
def isBoundaryChar (c : Char) : Bool := c == ' ' || c == '\t'

/-- `str::find` for the boundary-character slice: index of the first
space/tab, if any. -/
def findBd : List Char → Option Nat
  | [] => none
  | c :: rest => if isBoundaryChar c then some 0 else (findBd rest).map (· + 1)

/-- `str::rfind` for the boundary-character slice: index of the last
space/tab, if any. -/
def rfindBd : List Char → Option Nat
  | [] => none
  | c :: rest =>
    match rfindBd rest with
    | some i => some (i + 1)
    | none => if isBoundaryChar c then some 0 else none

/-- The zero-based lookup index of `completion`:
`position.character.saturating_sub(1)` (Nat subtraction saturates at 0
exactly like `saturating_sub`). -/
def lookupIndex (character : Nat) : Nat := character - 1

/-- The word-span computation of `completion` (src/lsp.rs 322-342): split the
line at the lookup index (`split_at_checked` succeeds iff the index is at
most the line length), search backward/forward for the nearest boundary
character, and return the half-open `(word_start, word_end)` pair.  When the
split fails the code yields `(index, index)`. -/
def wordBounds (line : List Char) (character : Nat) : Nat × Nat :=
  let index := lookupIndex character
  if index ≤ line.length then
    let lineStart := line.take index
    let lineEnd := line.drop index
    let startOffset :=
      match rfindBd lineStart with
      | some i => i + 1
      | none => 0
    let endOffset := (findBd lineEnd).getD lineEnd.length
    (startOffset, index + endOffset)
  else (index, index)

/-- Strip one trailing carriage return, as `str::lines` does per line. -/
def stripCr (l : List Char) : List Char :=
  if l.getLast? = some '\r' then l.dropLast else l

/-- Split a character list at every newline, keeping empty segments. -/
def splitOnNl : List Char → List (List Char)
  | [] => [[]]
  | c :: rest =>
    match splitOnNl rest with
    | [] => [[c]]
    | l :: ls => if c = '\n' then [] :: l :: ls else (c :: l) :: ls

/-- `str::lines`: split on newlines, drop the optional final empty segment
(the trailing line ending), and strip a trailing carriage return from each
line. -/
def rustLines (s : List Char) : List (List Char) :=
  let parts := splitOnNl s
  let parts := if parts.getLast? = some [] then parts.dropLast else parts
  parts.map stripCr

/-- The document store: path names mapped to file contents
(`sources: HashMap<String, String>`), modelled as an association list with
at most one entry per path. -/
def Store : Type := List (String × List Char)

/-- `HashMap::get` on the document store. -/
def lookupSrc : Store → String → Option (List Char)
  | [], _ => none
  | (q, t) :: rest, path => if q = path then some t else lookupSrc rest path

/-- `HashMap::insert` on the document store: overwrite the entry for the
path, or append a fresh one. -/
def insertSrc : Store → String → List Char → Store
  | [], path, text => [(path, text)]
  | (q, t) :: rest, path, text =>
    if q = path then (path, text) :: rest else (q, t) :: insertSrc rest path text

/-- `did_change` (src/lsp.rs 263-285): store the text of the first content
change wholesale, or the empty string when the change list is empty; changes
beyond the first are never read. -/
def did_change (sources : Store) (path : String) (contentChanges : List (List Char)) : Store :=
  let content :=
    match contentChanges.head? with
    | some c => c
    | none => []
  insertSrc sources path content

/-- `did_open` (src/lsp.rs 249-261): store the opened document's full text. -/
def did_open (sources : Store) (path : String) (text : List Char) : Store :=
  insertSrc sources path text

/-- A cursor position: zero-based line and character. -/
structure Position where
  line : Nat
  character : Nat
deriving DecidableEq

/-- `CompletionItemKind::CONSTANT` / `CompletionItemKind::KEYWORD`. -/
inductive ItemKind where
  | constantKind : ItemKind
  | keywordKind : ItemKind
deriving DecidableEq

/-- One LSP completion item as assembled by `completion` (src/lsp.rs
406-426): label and replacement text are the candidate's completion string,
detail is the resource label, documentation the candidate description, and
the text edit covers the resolved word range on the request's line. -/
structure CompletionItem where
  label : List Char
  detail : String
  kind : ItemKind
  documentation : Option (List Char)
  rangeStart : Position
  rangeEnd : Position
  newText : List Char
deriving DecidableEq

/-- Server state relevant to completion requests: the document store and the
three cached candidate sets (each a deduplicated list modelling a
`HashSet`). -/
structure LspState where
  sources : Store
  labels : List CompletionItemData
  members : List CompletionItemData
  milestones : List CompletionItemData

/-- The hardcoded quick-action candidates from the `'/'` arm of
`completion`. -/
def quickActionItems : List CompletionItemData :=
  [ { completion := "/assign ".toList, description := some "Assign users".toList },
    { completion := "/blocked_by ".toList, description := some "Is blocked by other issues".toList },
    { completion := "/blocks ".toList, description := some "Blocks other issues".toList },
    { completion := "/due ".toList, description := some "Due on a certain date".toList },
    { completion := "/relate ".toList, description := some "Relates to other issues".toList },
    { completion := "/label ".toList, description := some "Add labels".toList },
    { completion := "/milestone ".toList, description := some "Add to milestone".toList },
    { completion := "/title ".toList, description := some "Set title".toList } ]

/-- The item-building loop at the end of `completion`: one completion item
per candidate, with the resolved word range as replacement range. -/
def assemble (candidates : List CompletionItemData) (detail : String) (kind : ItemKind)
    (lineNo : Nat) (bounds : Nat × Nat) : List CompletionItem :=
  candidates.map fun comp =>
    { label := comp.completion
      detail := detail
      kind := kind
      documentation := comp.description
      rangeStart := { line := lineNo, character := bounds.1 }
      rangeEnd := { line := lineNo, character := bounds.2 }
      newText := comp.completion }

/-- Result of a completion request.  `fatal` models a panic raised by one of
the `.expect` calls; `noCompletion` is the `Ok(None)` reply; `items` is
`Ok(Some(CompletionResponse::Array(..)))`. -/
inductive CompletionOutcome where
  | fatal (msg : String) : CompletionOutcome
  | noCompletion : CompletionOutcome
  | items (xs : List CompletionItem) : CompletionOutcome
deriving DecidableEq

/-- Whether a completion outcome is a panic. -/
def CompletionOutcome.isFatal : CompletionOutcome → Bool
  | CompletionOutcome.fatal _ => true
  | _ => false

/-- The `completion` handler (src/lsp.rs 299-429): look up the document
(unknown path replies `Ok(None)`), select the line
(`.expect("line (row) should exist")`), resolve the word bounds, inspect the
character at the word start (`.expect("char (column) should exist")`), and
dispatch on the trigger character; any other character replies `Ok(None)`. -/
def completion (st : LspState) (pathname : String) (pos : Position) : CompletionOutcome :=
  match lookupSrc st.sources pathname with
  | none => CompletionOutcome.noCompletion
  | some contents =>
    match (rustLines contents)[pos.line]? with
    | none => CompletionOutcome.fatal "line (row) should exist"
    | some line =>
      match (line)[(wordBounds line pos.character).1]? with
      | none => CompletionOutcome.fatal "char (column) should exist"
      | some ch =>
        if ch = '/' then
          CompletionOutcome.items
            (assemble quickActionItems "quick action" ItemKind.keywordKind pos.line
              (wordBounds line pos.character))
        else if ch = '@' then
          CompletionOutcome.items
            (assemble st.members "username" ItemKind.constantKind pos.line
              (wordBounds line pos.character))
        else if ch = '%' then
          CompletionOutcome.items
            (assemble st.milestones "milestone" ItemKind.constantKind pos.line
              (wordBounds line pos.character))
        else if ch = '~' then
          CompletionOutcome.items
            (assemble st.labels "label" ItemKind.constantKind pos.line
              (wordBounds line pos.character))
        else CompletionOutcome.noCompletion

/-- Result of one spawned fetch task as seen by `join_all`: `ok` is
`Ok((kind, json))`; `joinErr` is a `JoinError` (the spawned task panicked on
a transport failure or a non-JSON response body). -/
inductive FetchResult where
  | ok (v : Json) : FetchResult
  | joinErr (msg : String) : FetchResult

/-- The three cached candidate sets in request order: labels, milestones,
members. -/
def Cache : Type :=
  List CompletionItemData × List CompletionItemData × List CompletionItemData

/-- Write one resource kind's candidate set (the `match resource_kind`
assignment block inside `initialize`'s response loop). -/
def cacheSet (c : Cache) : Resource → List CompletionItemData → Cache
  | Resource.Labels, v => (v, c.2.1, c.2.2)
  | Resource.Milestones, v => (c.1, v, c.2.2)
  | Resource.Members, v => (c.1, c.2.1, v)
  | Resource.QuickActions, _ => c

/-- Read one resource kind's candidate set from the cache. -/
def cacheGet (c : Cache) : Resource → List CompletionItemData
  | Resource.Labels => c.1
  | Resource.Milestones => c.2.1
  | Resource.Members => c.2.2
  | Resource.QuickActions => []

/-- One iteration of `initialize`'s `for res in responses` loop: an
`Ok((kind, Value::Array(json)))` response is normalized — a panic inside
`process_resource` aborts the whole handler — and stored; any other response
is only logged. -/
def cacheStep (f : Resource → FetchResult) (acc : Except String Cache) (k : Resource) :
    Except String Cache :=
  match acc with
  | Except.error e => Except.error e
  | Except.ok c =>
    match f k with
    | FetchResult.ok (Json.arr xs) =>
      match process_resource k xs with
      | Except.error e => Except.error e
      | Except.ok values => Except.ok (cacheSet c k values)
    | _ => Except.ok c

/-- The response-processing phase of `initialize`: the three requests are
issued in the order labels, milestones, members, and their settled results
are folded over the initially empty cache. -/
def cacheAfterInit (f : Resource → FetchResult) : Except String Cache :=
  [Resource.Labels, Resource.Milestones, Resource.Members].foldl (cacheStep f)
    (Except.ok (([], [], []) : Cache))

/-- The candidate set a single resource kind contributes, as a function of
its own fetch result alone: a good array response is normalized, anything
else leaves the entry empty. -/
def fetchedSet (k : Resource) (r : FetchResult) : Except String (List CompletionItemData) :=
  match r with
  | FetchResult.ok (Json.arr xs) => process_resource k xs
  | _ => Except.ok []

/-- Result of the `initialize` handler.  `errOut` is a graceful
`tower_lsp::jsonrpc::Error` reply with its message; `fatal` models a panic
(`Option::unwrap` on `None`, or a panic inside `process_resource`); `okOut`
carries the populated candidate sets. -/
inductive InitOutcome where
  | errOut (msg : String) : InitOutcome
  | fatal (msg : String) : InitOutcome
  | okOut (labels members milestones : List CompletionItemData) : InitOutcome

/-- The `initialize` handler (src/lsp.rs 102-226) up to its configuration
and fetch behaviour.  `token` is the `GITLAB_API_PRIVATE_TOKEN` environment
variable (`none` when unset — `var_os` returns `Some` even for an empty
string); `opts` is `params.initialization_options`; `f` gives each spawned
fetch's settled result.  The second component lists the resource fetches
that were issued. -/
def initServer (token : Option String) (opts : Option Json)
    (f : Resource → FetchResult) : InitOutcome × List Resource :=
  match token with
  | none =>
    (InitOutcome.errOut "Error: no GITLAB_API_PRIVATE_TOKEN environment variable detected", [])
  | some _ =>
    match opts with
    | some o =>
      match (match o with
             | Json.obj fields => lookupField fields "project"
             | _ => none) with
      | some (Json.str _) =>
        match cacheAfterInit f with
        | Except.error e =>
          (InitOutcome.fatal e, [Resource.Labels, Resource.Milestones, Resource.Members])
        | Except.ok c =>
          (InitOutcome.okOut c.1 c.2.2 c.2.1,
            [Resource.Labels, Resource.Milestones, Resource.Members])
      | some _ =>
        (InitOutcome.errOut "Error: invalid configuration param 'project' supplied, expected string", [])
      | none =>
        (InitOutcome.errOut "Error: required configuration param 'project' not supplied", [])
    | none =>
      (InitOutcome.fatal "called Option::unwrap() on a None value", [])

/-! ### Characterizations of the boundary searches -/

/-- No index of the half-open range `[lo, hi)` of `l` holds a boundary
character. -/
def noBoundaryIn (l : List Char) (lo hi : Nat) : Prop :=
  ∀ j, lo ≤ j → j < hi → ∀ c, (l)[j]? = some c → isBoundaryChar c = false

/-- Index `j` of `l` exists and holds a boundary character. -/
def boundaryAt (l : List Char) (j : Nat) : Prop :=
  ∃ c, (l)[j]? = some c ∧ isBoundaryChar c = true

theorem findBd_eq_none {s : List Char} (h : findBd s = none) :
    ∀ (j : Nat) (c : Char), (s)[j]? = some c → isBoundaryChar c = false := by
  induction s with
  | nil => intro j c hc; simp at hc
  | cons a rest ih =>
    intro j c hc
    cases hb : isBoundaryChar a with
    | true => simp [findBd, hb] at h
    | false =>
      simp only [findBd, hb, Bool.false_eq_true, if_false, Option.map_eq_none'] at h
      cases j with
      | zero =>
        simp only [List.getElem?_cons_zero, Option.some.injEq] at hc
        rw [← hc]; exact hb
      | succ j => exact ih h j c (by simpa using hc)

theorem findBd_eq_some {s : List Char} {i : Nat} (h : findBd s = some i) :
    i < s.length ∧ boundaryAt s i ∧
      ∀ j, j < i → ∀ (c : Char), (s)[j]? = some c → isBoundaryChar c = false := by
  induction s generalizing i with
  | nil => simp [findBd] at h
  | cons a rest ih =>
    cases hb : isBoundaryChar a with
    | true =>
      simp only [findBd, hb, if_true, Option.some.injEq] at h
      subst h
      exact ⟨by simp, ⟨a, by simp, hb⟩, fun j hj => by omega⟩
    | false =>
      simp only [findBd, hb, Bool.false_eq_true, if_false, Option.map_eq_some'] at h
      obtain ⟨i', hi', rfl⟩ := h
      obtain ⟨h1, h2, h3⟩ := ih hi'
      refine ⟨by simpa using h1, ?_, ?_⟩
      · obtain ⟨c, hc, hbc⟩ := h2
        exact ⟨c, by simpa using hc, hbc⟩
      · intro j hj c hc
        cases j with
        | zero =>
          simp only [List.getElem?_cons_zero, Option.some.injEq] at hc
          rw [← hc]; exact hb
        | succ j => exact h3 j (by omega) c (by simpa using hc)

theorem rfindBd_eq_none {s : List Char} (h : rfindBd s = none) :
    ∀ (j : Nat) (c : Char), (s)[j]? = some c → isBoundaryChar c = false := by
  induction s with
  | nil => intro j c hc; simp at hc
  | cons a rest ih =>
    intro j c hc
    cases hr : rfindBd rest with
    | some i => simp [rfindBd, hr] at h
    | none =>
      cases hb : isBoundaryChar a with
      | true => simp [rfindBd, hr, hb] at h
      | false =>
        cases j with
        | zero =>
          simp only [List.getElem?_cons_zero, Option.some.injEq] at hc
          rw [← hc]; exact hb
        | succ j => exact ih hr j c (by simpa using hc)

theorem rfindBd_eq_some {s : List Char} {i : Nat} (h : rfindBd s = some i) :
    i < s.length ∧ boundaryAt s i ∧
      ∀ j, i < j → ∀ (c : Char), (s)[j]? = some c → isBoundaryChar c = false := by
  induction s generalizing i with
  | nil => simp [rfindBd] at h
  | cons a rest ih =>
    cases hr : rfindBd rest with
    | some i' =>
      simp only [rfindBd, hr, Option.some.injEq] at h
      subst h
      obtain ⟨h1, h2, h3⟩ := ih hr
      refine ⟨by simpa using h1, ?_, ?_⟩
      · obtain ⟨c, hc, hbc⟩ := h2
        exact ⟨c, by simpa using hc, hbc⟩
      · intro j hj c hc
        cases j with
        | zero => omega
        | succ j => exact h3 j (by omega) c (by simpa using hc)
    | none =>
      cases hb : isBoundaryChar a with
      | true =>
        simp only [rfindBd, hr, hb, if_true, Option.some.injEq] at h
        subst h
        refine ⟨by simp, ⟨a, by simp, hb⟩, ?_⟩
        intro j hj c hc
        cases j with
        | zero => omega
        | succ j => exact rfindBd_eq_none hr j c (by simpa using hc)
      | false => simp [rfindBd, hr, hb] at h

/-- Claim C1: for every line and cursor character the resolver computes the
lookup index as `character - 1` floored at 0, splits the line there, puts the
word start one past the nearest backward space/tab of the prefix (0 if
none), and the word end at the lookup index plus the offset of the nearest
forward space/tab of the suffix (end of line if none); on the line
`"foo @bar baz"` with cursor at character 6 the resolved half-open range is
`[4, 8)`, covering exactly `"@bar"`, and the inspected trigger character is
`'@'`. -/
theorem c1_cursor_word_resolution :
    (∀ character : Nat, (lookupIndex character : Int) = max ((character : Int) - 1) 0)
    ∧ (∀ (l : List Char) (character : Nat),
        lookupIndex character ≤ l.length →
        (((wordBounds l character).1 = 0 ∧ noBoundaryIn l 0 (lookupIndex character))
          ∨ (1 ≤ (wordBounds l character).1
             ∧ (wordBounds l character).1 ≤ lookupIndex character
             ∧ boundaryAt l ((wordBounds l character).1 - 1)
             ∧ noBoundaryIn l (wordBounds l character).1 (lookupIndex character)))
        ∧ (((wordBounds l character).2 = l.length
             ∧ noBoundaryIn l (lookupIndex character) l.length)
          ∨ (lookupIndex character ≤ (wordBounds l character).2
             ∧ (wordBounds l character).2 < l.length
             ∧ boundaryAt l ((wordBounds l character).2)
             ∧ noBoundaryIn l (lookupIndex character) (wordBounds l character).2)))
    ∧ (wordBounds "foo @bar baz".toList 6 = (4, 8)
       ∧ (("foo @bar baz".toList).drop 4).take 4 = "@bar".toList
       ∧ ("foo @bar baz".toList)[4]? = some '@') := by
  refine ⟨?_, ?_, by decide, by decide, by decide⟩
  · intro c
    unfold lookupIndex
    omega
  · intro l character h
    constructor
    · cases hr : rfindBd (l.take (lookupIndex character)) with
      | none =>
        left
        have h1 : (wordBounds l character).1 = 0 := by
          simp [wordBounds, h, hr]
        refine ⟨h1, ?_⟩
        intro j _ hj c hc
        refine rfindBd_eq_none hr j c ?_
        rw [List.getElem?_take_of_lt hj]
        exact hc
      | some i =>
        right
        have h1 : (wordBounds l character).1 = i + 1 := by
          simp [wordBounds, h, hr]
        obtain ⟨hlen, hbd, hafter⟩ := rfindBd_eq_some hr
        rw [List.length_take_of_le h] at hlen
        refine ⟨by omega, by omega, ?_, ?_⟩
        · rw [h1]
          obtain ⟨c, hc, hbc⟩ := hbd
          refine ⟨c, ?_, hbc⟩
          have : i + 1 - 1 = i := by omega
          rw [this, ← List.getElem?_take_of_lt hlen]
          exact hc
        · rw [h1]
          intro j hj1 hj2 c hc
          refine hafter j (by omega) c ?_
          rw [List.getElem?_take_of_lt hj2]
          exact hc
    · cases hf : findBd (l.drop (lookupIndex character)) with
      | none =>
        left
        have h2 : (wordBounds l character).2
            = lookupIndex character + (l.drop (lookupIndex character)).length := by
          simp [wordBounds, h, hf]
        rw [List.length_drop] at h2
        refine ⟨by omega, ?_⟩
        intro j hj1 hj2 c hc
        refine findBd_eq_none hf (j - lookupIndex character) c ?_
        rw [List.getElem?_drop]
        have : lookupIndex character + (j - lookupIndex character) = j := by omega
        rw [this]
        exact hc
      | some k =>
        right
        have h2 : (wordBounds l character).2 = lookupIndex character + k := by
          simp [wordBounds, h, hf]
        obtain ⟨hlen, hbd, hbefore⟩ := findBd_eq_some hf
        rw [List.length_drop] at hlen
        refine ⟨by omega, by omega, ?_, ?_⟩
        · rw [h2]
          obtain ⟨c, hc, hbc⟩ := hbd
          refine ⟨c, ?_, hbc⟩
          rw [← List.getElem?_drop]
          exact hc
        · rw [h2]
          intro j hj1 hj2 c hc
          refine hbefore (j - lookupIndex character) (by omega) c ?_
          rw [List.getElem?_drop]
          have : lookupIndex character + (j - lookupIndex character) = j := by omega
          rw [this]
          exact hc

/-- Witness for C1: the general word-resolution property instantiated on the
line `"foo @bar baz"` with the cursor at character 6. -/
theorem c1_witness :
    (((wordBounds "foo @bar baz".toList 6).1 = 0
        ∧ noBoundaryIn "foo @bar baz".toList 0 (lookupIndex 6))
      ∨ (1 ≤ (wordBounds "foo @bar baz".toList 6).1
         ∧ (wordBounds "foo @bar baz".toList 6).1 ≤ lookupIndex 6
         ∧ boundaryAt "foo @bar baz".toList ((wordBounds "foo @bar baz".toList 6).1 - 1)
         ∧ noBoundaryIn "foo @bar baz".toList (wordBounds "foo @bar baz".toList 6).1
             (lookupIndex 6)))
    ∧ (((wordBounds "foo @bar baz".toList 6).2 = "foo @bar baz".toList.length
         ∧ noBoundaryIn "foo @bar baz".toList (lookupIndex 6) "foo @bar baz".toList.length)
      ∨ (lookupIndex 6 ≤ (wordBounds "foo @bar baz".toList 6).2
         ∧ (wordBounds "foo @bar baz".toList 6).2 < "foo @bar baz".toList.length
         ∧ boundaryAt "foo @bar baz".toList ((wordBounds "foo @bar baz".toList 6).2)
         ∧ noBoundaryIn "foo @bar baz".toList (lookupIndex 6)
             (wordBounds "foo @bar baz".toList 6).2)) :=
  c1_cursor_word_resolution.2.1 "foo @bar baz".toList 6 (by decide)

/-! ### Normalization shape (C2) -/

/-- The produced completion string ends in a space and its second-to-last
character, when present, is not a space. -/
def endsWithOneSpace (s : List Char) : Prop :=
  s.getLast? = some ' ' ∧ s.dropLast.getLast? ≠ some ' '

theorem format_ends_one_space (s0 : Char) (v : List Char) (h : s0 ≠ ' ') :
    endsWithOneSpace (formatCompletion [s0] v) := by
  unfold formatCompletion endsWithOneSpace
  by_cases hs : ' ' ∈ v
  · rw [if_pos hs]
    have heq : [s0] ++ ['"'] ++ v ++ ['"', ' '] = (([s0] ++ ['"'] ++ v) ++ ['"']) ++ [' '] := by
      simp
    rw [heq, List.getLast?_concat, List.dropLast_concat, List.getLast?_concat]
    exact ⟨rfl, by decide⟩
  · rw [if_neg hs]
    have heq : [s0] ++ v ++ [' '] = ([s0] ++ v) ++ [' '] := by simp
    rw [heq, List.getLast?_concat, List.dropLast_concat]
    refine ⟨rfl, ?_⟩
    intro hlast
    have hmem := List.mem_of_getLast?_eq_some hlast
    simp only [List.cons_append, List.nil_append, List.mem_cons] at hmem
    rcases hmem with hmem | hmem
    · exact h hmem.symm
    · exact hs hmem

theorem buildCandidate_completion {fields : List (String × Json)} {sigil : List Char}
    {vkey dkey : String} {v : List Char} {item : CompletionItemData}
    (hv : lookupField fields vkey = some (Json.str v))
    (h : buildCandidate fields sigil vkey dkey = Except.ok (some item)) :
    item.completion = formatCompletion sigil v := by
  simp only [buildCandidate, mapIndex, hv] at h
  cases hd : lookupField fields dkey with
  | none => rw [hd] at h; simp at h
  | some d =>
    rw [hd] at h
    cases d <;> simp at h <;> subst h <;> rfl

/-- Claim C2: whenever a raw resource object whose value field is a string
yields a candidate, the candidate's completion text is the resource's sigil
followed by the double-quoted value when the value contains a space and by
the bare value otherwise, always with exactly one trailing space; the label
`"needs review"` with an empty description yields exactly the candidate
`~"needs review" ` with no description. -/
theorem c2_normalization_shape :
    (∀ (kind : Resource) (sigilChar : Char) (vkey : String)
       (fields : List (String × Json)) (v : List Char) (item : CompletionItemData),
      ((kind = Resource.Labels ∧ sigilChar = '~' ∧ vkey = "name")
        ∨ (kind = Resource.Members ∧ sigilChar = '@' ∧ vkey = "username")
        ∨ (kind = Resource.Milestones ∧ sigilChar = '%' ∧ vkey = "title")) →
      lookupField fields vkey = some (Json.str v) →
      processOne kind (Json.obj fields) = Except.ok (some item) →
      item.completion = [sigilChar] ++ (if ' ' ∈ v then ['"'] ++ v ++ ['"'] else v) ++ [' ']
        ∧ endsWithOneSpace item.completion)
    ∧ process_resource Resource.Labels
        [Json.obj [("name", Json.str "needs review".toList), ("description", Json.str [])]]
      = Except.ok [{ completion := "~\"needs review\" ".toList, description := none }] := by
  constructor
  · intro kind sigilChar vkey fields v item hkind hv hitem
    have hcompl : item.completion = formatCompletion [sigilChar] v := by
      rcases hkind with ⟨hk, hs, hvk⟩ | ⟨hk, hs, hvk⟩ | ⟨hk, hs, hvk⟩ <;> subst hk <;> subst hs <;>
        subst hvk
      · exact buildCandidate_completion hv hitem
      · exact buildCandidate_completion hv hitem
      · simp only [processOne, mapIndex] at hitem
        cases he : lookupField fields "expired" with
        | none => rw [he] at hitem; simp at hitem
        | some ev =>
          rw [he] at hitem
          cases ev
          case bool b =>
            cases b
            · exact buildCandidate_completion hv hitem
            · simp at hitem
          all_goals exact buildCandidate_completion hv hitem
    constructor
    · rw [hcompl]
      unfold formatCompletion
      by_cases hs : ' ' ∈ v
      · rw [if_pos hs, if_pos hs]
        simp
      · rw [if_neg hs, if_neg hs]
    · rw [hcompl]
      refine format_ends_one_space sigilChar v ?_
      rcases hkind with ⟨_, hs, _⟩ | ⟨_, hs, _⟩ | ⟨_, hs, _⟩ <;> subst hs <;> decide
  · rfl

/-- Witness for C2: the shape property instantiated on the label
`"needs review"` with an empty description. -/
theorem c2_witness :
    ({ completion := "~\"needs review\" ".toList, description := none }
        : CompletionItemData).completion
      = ['~'] ++ (if ' ' ∈ "needs review".toList
          then ['"'] ++ "needs review".toList ++ ['"'] else "needs review".toList) ++ [' ']
    ∧ endsWithOneSpace
        ({ completion := "~\"needs review\" ".toList, description := none }
          : CompletionItemData).completion :=
  c2_normalization_shape.1 Resource.Labels '~' "name"
    [("name", Json.str "needs review".toList), ("description", Json.str [])]
    "needs review".toList
    { completion := "~\"needs review\" ".toList, description := none }
    (Or.inl ⟨rfl, rfl, rfl⟩) rfl rfl

/-! ### Expired milestones (C3) -/

theorem collectCands_skip {kind : Resource} {r : Json}
    (h : processOne kind r = Except.ok none) :
    ∀ (pre post : List Json),
      collectCands kind (pre ++ r :: post) = collectCands kind (pre ++ post) := by
  intro pre
  induction pre with
  | nil =>
    intro post
    simp only [List.nil_append, collectCands, h]
  | cons p pre ih =>
    intro post
    simp only [List.cons_append, collectCands, List.append_eq]
    rw [ih post]

/-- Claim C3: a raw milestone object carrying `expired: true` contributes no
candidate to the normalized milestone set, wherever it occurs in the fetched
array and whatever its other fields hold. -/
theorem c3_expired_milestone_excluded :
    ∀ (fields : List (String × Json)) (pre post : List Json),
      lookupField fields "expired" = some (Json.bool true) →
      process_resource Resource.Milestones (pre ++ Json.obj fields :: post)
        = process_resource Resource.Milestones (pre ++ post) := by
  intro fields pre post h
  unfold process_resource
  rw [collectCands_skip (by simp [processOne, mapIndex, h]) pre post]

/-- Witness for C3: dropping an expired milestone record leaves the
candidate set of the remaining records unchanged. -/
theorem c3_witness :
    process_resource Resource.Milestones
        ([Json.obj [("expired", Json.bool false), ("title", Json.str "v1".toList),
            ("description", Json.str "first sprint".toList)]]
          ++ Json.obj [("expired", Json.bool true), ("title", Json.str "old".toList)] :: [])
      = process_resource Resource.Milestones
        ([Json.obj [("expired", Json.bool false), ("title", Json.str "v1".toList),
            ("description", Json.str "first sprint".toList)]]
          ++ []) :=
  c3_expired_milestone_excluded
    [("expired", Json.bool true), ("title", Json.str "old".toList)]
    [Json.obj [("expired", Json.bool false), ("title", Json.str "v1".toList),
        ("description", Json.str "first sprint".toList)]]
    [] rfl

/-! ### No-completion replies (C4) -/

/-- Claim C4: a completion request for a path missing from the document
store, or one whose inspected trigger character is none of `/`, `@`, `%`,
`~`, is answered with the explicit no-completion reply `Ok(None)`, never an
error. -/
theorem c4_unknown_or_untriggered_no_completion :
    (∀ (st : LspState) (path : String) (pos : Position),
      lookupSrc st.sources path = none →
      completion st path pos = CompletionOutcome.noCompletion)
    ∧ (∀ (st : LspState) (path : String) (pos : Position) (contents l : List Char) (ch : Char),
      lookupSrc st.sources path = some contents →
      (rustLines contents)[pos.line]? = some l →
      (l)[(wordBounds l pos.character).1]? = some ch →
      ch ≠ '/' → ch ≠ '@' → ch ≠ '%' → ch ≠ '~' →
      completion st path pos = CompletionOutcome.noCompletion) := by
  constructor
  · intro st path pos h
    simp only [completion, h]
  · intro st path pos contents l ch h1 h2 h3 h4 h5 h6 h7
    simp only [completion, h1, h2, h3]
    rw [if_neg h4, if_neg h5, if_neg h6, if_neg h7]

/-- Witness for C4: a request for an unknown path, and a request whose word
start holds the non-trigger character `x`, both yield the no-completion
reply. -/
theorem c4_witness :
    completion { sources := [("d", "x y".toList)], labels := [], members := [], milestones := [] }
        "missing" { line := 0, character := 0 } = CompletionOutcome.noCompletion
    ∧ completion { sources := [("d", "x y".toList)], labels := [], members := [], milestones := [] }
        "d" { line := 0, character := 1 } = CompletionOutcome.noCompletion :=
  ⟨c4_unknown_or_untriggered_no_completion.1
      { sources := [("d", "x y".toList)], labels := [], members := [], milestones := [] }
      "missing" { line := 0, character := 0 } rfl,
    c4_unknown_or_untriggered_no_completion.2
      { sources := [("d", "x y".toList)], labels := [], members := [], milestones := [] }
      "d" { line := 0, character := 1 } "x y".toList "x y".toList 'x' rfl rfl rfl
      (by decide) (by decide) (by decide) (by decide)⟩

/-! ### Cursor at character 0 (C5) -/

/-- Counterexample to C5 as stated: on an empty line of a stored document —
here the document `"\n"`, whose single line is empty — the completion
request at character 0 panics at `.expect("char (column) should exist")`,
because the line has no character at the word-start offset 0. -/
theorem c5_counterexample :
    completion { sources := [("f", "\n".toList)], labels := [], members := [], milestones := [] }
        "f" { line := 0, character := 0 }
      = CompletionOutcome.fatal "char (column) should exist" := rfl

/-- Claim C5, amended: on every nonempty line of a stored document, a
completion request at character 0 treats the lookup index as 0 and the word
start as offset 0, and never panics — it produces a completion list or the
no-completion reply.  (On an empty line the code panics, see the
counterexample.) -/
theorem c5_char_zero_safe :
    ∀ (st : LspState) (path : String) (pos : Position) (contents l : List Char),
      lookupSrc st.sources path = some contents →
      (rustLines contents)[pos.line]? = some l →
      pos.character = 0 → l ≠ [] →
      lookupIndex pos.character = 0
        ∧ (wordBounds l pos.character).1 = 0
        ∧ (completion st path pos).isFatal = false := by
  intro st path pos contents l h1 h2 hc hne
  have hidx : lookupIndex pos.character = 0 := by rw [hc]; rfl
  have hwb : (wordBounds l pos.character).1 = 0 := by
    simp [wordBounds, hidx, rfindBd]
  refine ⟨hidx, hwb, ?_⟩
  obtain ⟨a, rest, rfl⟩ : ∃ a rest, l = a :: rest := by
    cases l with
    | nil => exact absurd rfl hne
    | cons a rest => exact ⟨a, rest, rfl⟩
  have hget : (a :: rest)[(wordBounds (a :: rest) pos.character).1]? = some a := by
    rw [hwb]; simp
  simp only [completion, h1, h2, hget]
  split_ifs <;> rfl

/-- Witness for C5 (amended): on the stored one-character document `"x"`,
the request at character 0 resolves word start 0 and replies without
panicking. -/
theorem c5_witness :
    lookupIndex (0 : Nat) = 0
      ∧ (wordBounds "x".toList 0).1 = 0
      ∧ (completion
          { sources := [("p", "x".toList)], labels := [], members := [], milestones := [] }
          "p" { line := 0, character := 0 }).isFatal = false :=
  c5_char_zero_safe
    { sources := [("p", "x".toList)], labels := [], members := [], milestones := [] }
    "p" { line := 0, character := 0 } "x".toList "x".toList rfl rfl rfl (by decide)

/-! ### Initialization configuration (C6, C7) -/

/-- Counterexample to C6 as stated: with the credential present but EMPTY
(the environment variable set to the empty string), `var_os` still returns
`Some`, so initialization does not fail — all three fetches are issued and
the handler returns successfully. -/
theorem c6_counterexample :
    (initServer (some "") (some (Json.obj [("project", Json.str "group/proj".toList)]))
        (fun _ => FetchResult.joinErr "connection failed")).2
      = [Resource.Labels, Resource.Milestones, Resource.Members]
    ∧ (initServer (some "") (some (Json.obj [("project", Json.str "group/proj".toList)]))
        (fun _ => FetchResult.joinErr "connection failed")).1
      = InitOutcome.okOut [] [] [] :=
  ⟨rfl, rfl⟩

/-- Claim C6, amended: with a MISSING authentication credential (environment
variable unset, `var_os` returning `None`), initialization fails with the
token error before any network fetch is attempted; a credential that is
present but empty is accepted and fetches proceed. -/
theorem c6_missing_token_fails_before_fetch :
    ∀ (opts : Option Json) (f : Resource → FetchResult),
      initServer none opts f
        = (InitOutcome.errOut
            "Error: no GITLAB_API_PRIVATE_TOKEN environment variable detected", []) :=
  fun _ _ => rfl

/-- Claim C7 (divergence witness): with the token set, absent initialization
options make `initialize` panic on `state.config.project.clone().unwrap()`
— no descriptive error is returned — while options lacking a `project`
entry, or carrying a non-string one, do produce the descriptive fatal
errors; in every one of these cases no fetch is issued. -/
theorem c7_project_config_outcomes :
    initServer (some "token") none (fun _ => FetchResult.joinErr "unused")
        = (InitOutcome.fatal "called Option::unwrap() on a None value", [])
      ∧ initServer (some "token") (some (Json.obj [])) (fun _ => FetchResult.joinErr "unused")
        = (InitOutcome.errOut "Error: required configuration param 'project' not supplied", [])
      ∧ initServer (some "token") (some (Json.obj [("project", Json.bool true)]))
          (fun _ => FetchResult.joinErr "unused")
        = (InitOutcome.errOut
            "Error: invalid configuration param 'project' supplied, expected string", []) :=
  ⟨rfl, rfl, rfl⟩

/-! ### Fetch-failure isolation (C8) -/

theorem cacheStep_labels (f : Resource → FetchResult) :
    cacheStep f (Except.ok (([], [], []) : Cache)) Resource.Labels =
      match fetchedSet Resource.Labels (f Resource.Labels) with
      | Except.error e => Except.error e
      | Except.ok vs => Except.ok ((vs, [], []) : Cache) := by
  unfold cacheStep fetchedSet
  cases hf : f Resource.Labels with
  | joinErr m => rfl
  | ok v =>
    cases v with
    | arr xs => cases hp : process_resource Resource.Labels xs <;> rfl
    | null => rfl
    | bool b => rfl
    | num n => rfl
    | str s => rfl
    | obj fs => rfl

theorem cacheStep_milestones (f : Resource → FetchResult) (lc memc : List CompletionItemData) :
    cacheStep f (Except.ok ((lc, [], memc) : Cache)) Resource.Milestones =
      match fetchedSet Resource.Milestones (f Resource.Milestones) with
      | Except.error e => Except.error e
      | Except.ok vs => Except.ok ((lc, vs, memc) : Cache) := by
  unfold cacheStep fetchedSet
  cases hf : f Resource.Milestones with
  | joinErr m => rfl
  | ok v =>
    cases v with
    | arr xs => cases hp : process_resource Resource.Milestones xs <;> rfl
    | null => rfl
    | bool b => rfl
    | num n => rfl
    | str s => rfl
    | obj fs => rfl

theorem cacheStep_members (f : Resource → FetchResult) (lc mc : List CompletionItemData) :
    cacheStep f (Except.ok ((lc, mc, []) : Cache)) Resource.Members =
      match fetchedSet Resource.Members (f Resource.Members) with
      | Except.error e => Except.error e
      | Except.ok vs => Except.ok ((lc, mc, vs) : Cache) := by
  unfold cacheStep fetchedSet
  cases hf : f Resource.Members with
  | joinErr m => rfl
  | ok v =>
    cases v with
    | arr xs => cases hp : process_resource Resource.Members xs <;> rfl
    | null => rfl
    | bool b => rfl
    | num n => rfl
    | str s => rfl
    | obj fs => rfl

/-- The final cache is componentwise determined: each of the three kinds
contributes exactly its own fetch's normalization, with panics surfacing in
request order. -/
theorem cacheAfterInit_eq (f : Resource → FetchResult) :
    cacheAfterInit f =
      match fetchedSet Resource.Labels (f Resource.Labels) with
      | Except.error e => Except.error e
      | Except.ok ls =>
        match fetchedSet Resource.Milestones (f Resource.Milestones) with
        | Except.error e => Except.error e
        | Except.ok ms =>
          match fetchedSet Resource.Members (f Resource.Members) with
          | Except.error e => Except.error e
          | Except.ok mems => Except.ok ((ls, ms, mems) : Cache) := by
  have h0 : cacheAfterInit f
      = cacheStep f (cacheStep f (cacheStep f (Except.ok (([], [], []) : Cache))
          Resource.Labels) Resource.Milestones) Resource.Members := rfl
  rw [h0, cacheStep_labels]
  cases hL : fetchedSet Resource.Labels (f Resource.Labels) with
  | error e => rfl
  | ok ls =>
    rw [cacheStep_milestones]
    cases hM : fetchedSet Resource.Milestones (f Resource.Milestones) with
    | error e => rfl
    | ok ms =>
      rw [cacheStep_members]

/-- Claim C8: when one of the three fetchable kinds fails — its settled
result is not an `Ok` JSON array — while the records of the other two kinds
normalize without panicking, initialization still settles with a cache whose
entry for the failed kind is empty and whose entries for the other two kinds
are exactly their own fetches' normalizations. -/
theorem c8_fetch_failure_isolation :
    ∀ (f : Resource → FetchResult) (k : Resource),
      k ∈ [Resource.Labels, Resource.Milestones, Resource.Members] →
      (∀ xs, f k ≠ FetchResult.ok (Json.arr xs)) →
      (∀ j, j ∈ [Resource.Labels, Resource.Milestones, Resource.Members] → j ≠ k →
        ∀ e, fetchedSet j (f j) ≠ Except.error e) →
      ∃ c : Cache, cacheAfterInit f = Except.ok c
        ∧ cacheGet c k = []
        ∧ ∀ j, j ∈ [Resource.Labels, Resource.Milestones, Resource.Members] → j ≠ k →
            Except.ok (cacheGet c j) = fetchedSet j (f j) := by
  intro f k hk hbad hgood
  have hks : fetchedSet k (f k) = Except.ok [] := by
    unfold fetchedSet
    cases hf : f k with
    | joinErr m => rfl
    | ok v =>
      cases v with
      | arr xs => exact absurd hf (hbad xs)
      | null => rfl
      | bool b => rfl
      | num n => rfl
      | str s => rfl
      | obj fs => rfl
  have hok : ∀ j, j ∈ [Resource.Labels, Resource.Milestones, Resource.Members] → j ≠ k →
      ∃ vs, fetchedSet j (f j) = Except.ok vs := by
    intro j hj hne
    cases hfs : fetchedSet j (f j) with
    | error e => exact absurd hfs (hgood j hj hne e)
    | ok vs => exact ⟨vs, rfl⟩
  simp only [List.mem_cons, List.not_mem_nil, or_false] at hk
  rcases hk with rfl | rfl | rfl
  · obtain ⟨ms, hM⟩ := hok Resource.Milestones (by simp) (by simp)
    obtain ⟨mems, hMem⟩ := hok Resource.Members (by simp) (by simp)
    refine ⟨([], ms, mems), ?_, rfl, ?_⟩
    · rw [cacheAfterInit_eq, hks, hM, hMem]
    · intro j hj hne
      simp only [List.mem_cons, List.not_mem_nil, or_false] at hj
      rcases hj with rfl | rfl | rfl
      · exact absurd rfl hne
      · exact hM.symm
      · exact hMem.symm
  · obtain ⟨ls, hL⟩ := hok Resource.Labels (by simp) (by simp)
    obtain ⟨mems, hMem⟩ := hok Resource.Members (by simp) (by simp)
    refine ⟨(ls, [], mems), ?_, rfl, ?_⟩
    · rw [cacheAfterInit_eq, hks, hL, hMem]
    · intro j hj hne
      simp only [List.mem_cons, List.not_mem_nil, or_false] at hj
      rcases hj with rfl | rfl | rfl
      · exact hL.symm
      · exact absurd rfl hne
      · exact hMem.symm
  · obtain ⟨ls, hL⟩ := hok Resource.Labels (by simp) (by simp)
    obtain ⟨ms, hM⟩ := hok Resource.Milestones (by simp) (by simp)
    refine ⟨(ls, ms, []), ?_, rfl, ?_⟩
    · rw [cacheAfterInit_eq, hks, hL, hM]
    · intro j hj hne
      simp only [List.mem_cons, List.not_mem_nil, or_false] at hj
      rcases hj with rfl | rfl | rfl
      · exact hL.symm
      · exact hM.symm
      · exact absurd rfl hne

/-- A settled fetch outcome where the labels fetch fails on transport, the
milestones fetch returns one good record, and the members fetch returns an
empty array. -/
def exampleFetch : Resource → FetchResult
  | Resource.Labels => FetchResult.joinErr "transport failure"
  | Resource.Milestones =>
    FetchResult.ok (Json.arr [Json.obj [("expired", Json.bool false),
      ("title", Json.str "v1".toList), ("description", Json.str [])]])
  | Resource.Members => FetchResult.ok (Json.arr [])
  | Resource.QuickActions => FetchResult.joinErr "never requested"

/-- Witness for C8: with the labels fetch failing, initialization settles,
the labels entry is empty, and milestones and members keep their own
normalizations. -/
theorem c8_witness :
    ∃ c : Cache, cacheAfterInit exampleFetch = Except.ok c
      ∧ cacheGet c Resource.Labels = []
      ∧ ∀ j, j ∈ [Resource.Labels, Resource.Milestones, Resource.Members] →
          j ≠ Resource.Labels →
          Except.ok (cacheGet c j) = fetchedSet j (exampleFetch j) :=
  c8_fetch_failure_isolation exampleFetch Resource.Labels (by simp)
    (fun xs h => FetchResult.noConfusion h)
    (by
      intro j hj hne e he
      simp only [List.mem_cons, List.not_mem_nil, or_false] at hj
      rcases hj with rfl | rfl | rfl
      · exact absurd rfl hne
      · exact Except.noConfusion he
      · exact Except.noConfusion he)

/-! ### Normalization determinism and duplicate collapse (C9) -/

theorem mem_collectCands {kind : Resource} :
    ∀ {rs : List Json} {cands : List CompletionItemData},
      collectCands kind rs = Except.ok cands →
      ∀ c, c ∈ cands ↔ ∃ r ∈ rs, processOne kind r = Except.ok (some c) := by
  intro rs
  induction rs with
  | nil =>
    intro cands h c
    simp only [collectCands, Except.ok.injEq] at h
    subst h
    simp
  | cons r rest ih =>
    intro cands h c
    simp only [collectCands] at h
    cases hp : processOne kind r with
    | error e => rw [hp] at h; exact absurd h (by simp)
    | ok o =>
      rw [hp] at h
      cases o with
      | none =>
        have h' : collectCands kind rest = Except.ok cands := h
        rw [ih h' c]
        simp only [List.mem_cons, exists_eq_or_imp, hp]
        simp
      | some item =>
        cases hr : collectCands kind rest with
        | error e => rw [hr] at h; exact absurd h (by simp)
        | ok out =>
          rw [hr] at h
          have h' : item :: out = cands := by
            simpa using h
          subst h'
          simp only [List.mem_cons, exists_eq_or_imp, hp]
          constructor
          · rintro (rfl | hc)
            · exact Or.inl rfl
            · exact Or.inr ((ih hr c).mp hc)
          · rintro (hc | hc)
            · simp only [Except.ok.injEq, Option.some.injEq] at hc
              exact Or.inl hc.symm
            · exact Or.inr ((ih hr c).mpr hc)

/-- Claim C9: normalization is deterministic — two runs on the same raw
input agree — and when it settles, the produced candidate set is
duplicate-free and contains exactly the candidates some raw record
normalizes to, so duplicate raw records collapse to a single candidate. -/
theorem c9_normalization_deterministic_dedup :
    ∀ (kind : Resource) (rs : List Json),
      process_resource kind rs = process_resource kind rs
      ∧ ∀ out, process_resource kind rs = Except.ok out →
          out.Nodup ∧ ∀ c, c ∈ out ↔ ∃ r ∈ rs, processOne kind r = Except.ok (some c) := by
  intro kind rs
  refine ⟨rfl, ?_⟩
  intro out h
  unfold process_resource at h
  cases hc : collectCands kind rs with
  | error e => rw [hc] at h; exact absurd h (by simp [Except.map])
  | ok cands =>
    rw [hc] at h
    have hout : cands.dedup = out := by simpa [Except.map] using h
    subst hout
    refine ⟨List.nodup_dedup cands, ?_⟩
    intro c
    rw [List.mem_dedup]
    exact mem_collectCands hc c

/-- Two structurally identical raw label records. -/
def dupRawLabels : List Json :=
  [Json.obj [("name", Json.str "bug".toList), ("description", Json.str [])],
   Json.obj [("name", Json.str "bug".toList), ("description", Json.str [])]]

/-- Witness for C9: normalizing two identical raw label records produces the
single deduplicated candidate `~bug `. -/
theorem c9_witness :
    ([{ completion := "~bug ".toList, description := none }]
        : List CompletionItemData).Nodup
      ∧ ∀ c, c ∈ ([{ completion := "~bug ".toList, description := none }]
            : List CompletionItemData)
          ↔ ∃ r ∈ dupRawLabels, processOne Resource.Labels r = Except.ok (some c) :=
  (c9_normalization_deterministic_dedup Resource.Labels dupRawLabels).2
    [{ completion := "~bug ".toList, description := none }] rfl

/-! ### Document change semantics (C10) -/

theorem lookupSrc_insertSrc_self (s : Store) (path : String) (text : List Char) :
    lookupSrc (insertSrc s path text) path = some text := by
  induction s with
  | nil => simp [insertSrc, lookupSrc]
  | cons e rest ih =>
    obtain ⟨q, t⟩ := e
    by_cases hq : q = path
    · simp [insertSrc, hq, lookupSrc]
    · simp [insertSrc, hq, lookupSrc, ih]

theorem lookupSrc_insertSrc_ne (s : Store) (path other : String) (text : List Char)
    (h : other ≠ path) :
    lookupSrc (insertSrc s path text) other = lookupSrc s other := by
  induction s with
  | nil => simp [insertSrc, lookupSrc, Ne.symm h]
  | cons e rest ih =>
    obtain ⟨q, t⟩ := e
    by_cases hq : q = path
    · subst hq
      simp [insertSrc, lookupSrc, Ne.symm h]
    · by_cases hqo : q = other
      · simp [insertSrc, hq, lookupSrc, hqo, h]
      · simp [insertSrc, hq, lookupSrc, hqo, ih]

/-- Claim C10: a change notification stores exactly the text of the first
content change for the notified path (the empty string when the change list
is empty), ignores all further changes, and leaves every other path's entry
untouched. -/
theorem c10_did_change :
    ∀ (sources : Store) (path : String) (changes : List (List Char)),
      lookupSrc (did_change sources path changes) path
          = some ((changes.head?).getD [])
        ∧ (∀ (c : List Char) (rest : List (List Char)),
            did_change sources path (c :: rest) = did_change sources path [c])
        ∧ ∀ other, other ≠ path →
            lookupSrc (did_change sources path changes) other = lookupSrc sources other := by
  intro sources path changes
  refine ⟨?_, ?_, ?_⟩
  · unfold did_change
    cases changes with
    | nil => simpa using lookupSrc_insertSrc_self sources path []
    | cons c rest => simpa using lookupSrc_insertSrc_self sources path c
  · intro c rest
    rfl
  · intro other h
    unfold did_change
    exact lookupSrc_insertSrc_ne _ _ _ _ h

/-- Witness for C10: changing `"a"` to the first of two change texts keeps
the unrelated path `"b"` unchanged. -/
theorem c10_witness :
    lookupSrc (did_change [("a", "old".toList)] "a" ["new".toList, "ignored".toList]) "a"
        = some ((["new".toList, "ignored".toList].head?).getD [])
      ∧ lookupSrc (did_change [("a", "old".toList)] "a" ["new".toList, "ignored".toList]) "b"
        = lookupSrc [("a", "old".toList)] "b" :=
  ⟨(c10_did_change [("a", "old".toList)] "a" ["new".toList, "ignored".toList]).1,
   (c10_did_change [("a", "old".toList)] "a" ["new".toList, "ignored".toList]).2.2 "b"
     (by decide)⟩
